import Mathlib

/-!
A shallow embedding of the SDK's request pipeline: the filter encoder
(`src/lib/api/filtering.ts`), the query composer, the lazy resource
composer and the retry/backoff request executor (`src/lib/api/index.ts`),
together with models of the JavaScript builtins they rely on
(`encodeURIComponent`, `decodeURIComponent`, `Array.prototype.join`,
`String.prototype.split`, lodash `compact`, string-to-number coercion,
`JSON.parse`).
-/

namespace SDK

/-! ## Models of JavaScript string builtins -/

/-- Model of JavaScript `Array.prototype.join(sep)` restricted to arrays of
strings (the stringification of non-string elements is applied by callers
before joining). -/
def jsJoin (sep : String) : List String → String
  | [] => ""
  | [s] => s
  | s :: rest => s ++ sep ++ jsJoin sep rest

/-- Model of JavaScript `String.prototype.split(sep)` for a one-character
separator, at the level of character lists.  As in JavaScript, splitting the
empty string yields a single empty piece. -/
def splitChars (sep : Char) : List Char → List (List Char)
  | [] => [[]]
  | c :: cs =>
    match splitChars sep cs with
    | [] => [[]]
    | p :: ps => if c = sep then [] :: p :: ps else (c :: p) :: ps

/-- Model of JavaScript `String.prototype.split(sep)` for a one-character
separator. -/
def jsSplit (sep : Char) (s : String) : List String :=
  (splitChars sep s.data).map String.mk

/-- Model of lodash `compact` on an array of strings: removes falsy elements,
which for strings means removing the empty string. -/
def jsCompact (ss : List String) : List String :=
  ss.filter (fun s => s ≠ "")

/-- The last character of a string, if any. -/
def lastChar (s : String) : Option Char :=
  s.data.getLast?

/-! ## Decimal rendering of numbers (JavaScript `String(n)` for integers) -/

/-- The character for a single decimal digit. -/
def digitChar (n : Nat) : Char :=
  match n with
  | 0 => '0' | 1 => '1' | 2 => '2' | 3 => '3' | 4 => '4'
  | 5 => '5' | 6 => '6' | 7 => '7' | 8 => '8' | _ => '9'

/-- The decimal digit characters of a natural number, most significant
first; fuel-bounded (any fuel above the digit count is enough). -/
def natDigitsAux : Nat → Nat → List Char
  | 0, _ => []
  | fuel + 1, n =>
    if n < 10 then [digitChar n]
    else natDigitsAux fuel (n / 10) ++ [digitChar (n % 10)]

/-- The decimal digit characters of a natural number, most significant first. -/
def natDigits (n : Nat) : List Char :=
  natDigitsAux (n + 1) n

/-- Model of JavaScript `String(n)` for an integer-valued number. -/
def jsIntRepr : Int → String
  | .ofNat n => ⟨natDigits n⟩
  | .negSucc n => ⟨'-' :: natDigits (n + 1)⟩

/-! ## `encodeURIComponent` / `decodeURIComponent` -/

/-- The characters `encodeURIComponent` leaves unescaped:
ASCII alphanumerics and `- _ . ! ~ * ' ( )`. -/
def uriUnreserved (c : Char) : Bool :=
  (c.isAlpha && c.toNat < 128) || c.isDigit ||
    c ∈ ['-', '_', '.', '!', '~', '*', Char.ofNat 39, '(', ')']

/-- One uppercase hexadecimal digit. -/
def hexDigitChar (n : Nat) : Char :=
  match n with
  | 0 => '0' | 1 => '1' | 2 => '2' | 3 => '3' | 4 => '4'
  | 5 => '5' | 6 => '6' | 7 => '7' | 8 => '8' | 9 => '9'
  | 10 => 'A' | 11 => 'B' | 12 => 'C' | 13 => 'D' | 14 => 'E' | _ => 'F'

/-- The UTF-8 encoding of a Unicode code point, as a list of byte values. -/
def utf8Bytes (n : Nat) : List Nat :=
  if n < 0x80 then [n]
  else if n < 0x800 then [0xC0 + n / 64, 0x80 + n % 64]
  else if n < 0x10000 then [0xE0 + n / 4096, 0x80 + n / 64 % 64, 0x80 + n % 64]
  else [0xF0 + n / 262144, 0x80 + n / 4096 % 64, 0x80 + n / 64 % 64, 0x80 + n % 64]

/-- The percent-escape of one byte, e.g. byte 32 becomes `%20`. -/
def percentByte (b : Nat) : List Char :=
  ['%', hexDigitChar (b / 16), hexDigitChar (b % 16)]

/-- `encodeURIComponent` on one character: unreserved characters pass through,
all others are percent-escaped byte-by-byte in their UTF-8 form. -/
def encodeChar (c : Char) : List Char :=
  if uriUnreserved c then [c] else ((utf8Bytes c.toNat).map percentByte).flatten

/-- Model of the JavaScript builtin `encodeURIComponent`. -/
def encodeURIComponent (s : String) : String :=
  ⟨(s.data.map encodeChar).flatten⟩

/-- The numeric value of one hexadecimal digit character, if it is one. -/
def hexVal (c : Char) : Option Nat :=
  if '0' ≤ c ∧ c ≤ '9' then some (c.toNat - '0'.toNat)
  else if 'a' ≤ c ∧ c ≤ 'f' then some (c.toNat - 'a'.toNat + 10)
  else if 'A' ≤ c ∧ c ≤ 'F' then some (c.toNat - 'A'.toNat + 10)
  else none

/-- Reads one byte written as two hex digits. -/
def readByte : List Char → Option (Nat × List Char)
  | h :: l :: rest =>
    match hexVal h, hexVal l with
    | some a, some b => some (16 * a + b, rest)
    | _, _ => none
  | _ => none

/-- Reads one `%HH` percent-escape group. -/
def readPercentByte : List Char → Option (Nat × List Char)
  | c :: cs => if c = '%' then readByte cs else none
  | _ => none

/-- Reads one `%HH` group that must be a UTF-8 continuation byte, returning
its low six bits. -/
def readCont (cs : List Char) : Option (Nat × List Char) :=
  match readPercentByte cs with
  | some (b, rest) =>
    if 0x80 ≤ b ∧ b < 0xC0 then some (b - 0x80, rest) else none
  | none => none

/-- Model of the JavaScript builtin `decodeURIComponent` at the level of
character lists: percent-escape groups are decoded as UTF-8 byte sequences
(rejecting, as the builtin does, malformed escapes, overlong encodings,
surrogate code points and out-of-range code points by throwing, modelled
here as `none`); all other characters pass through unchanged.  The
recursion is fuel-bounded, consuming one unit per decoded character, so any
fuel at least the input length is enough. -/
def decodeCharsF : Nat → List Char → Option (List Char)
  | _, [] => some []
  | 0, _ :: _ => none
  | fuel + 1, c :: cs =>
    if c = '%' then
      match readByte cs with
      | none => none
      | some (b1, r1) =>
        if b1 < 0x80 then (Char.ofNat b1 :: ·) <$> decodeCharsF fuel r1
        else if b1 < 0xC0 then none
        else if b1 < 0xE0 then
          match readCont r1 with
          | some (b2, r2) =>
            let n := (b1 - 0xC0) * 64 + b2
            if 0x80 ≤ n then (Char.ofNat n :: ·) <$> decodeCharsF fuel r2
            else none
          | none => none
        else if b1 < 0xF0 then
          match readCont r1 with
          | some (b2, r2) =>
            match readCont r2 with
            | some (b3, r3) =>
              let n := (b1 - 0xE0) * 4096 + b2 * 64 + b3
              if 0x800 ≤ n ∧ ¬(0xD800 ≤ n ∧ n < 0xE000) then
                (Char.ofNat n :: ·) <$> decodeCharsF fuel r3
              else none
            | none => none
          | none => none
        else if b1 < 0xF8 then
          match readCont r1 with
          | some (b2, r2) =>
            match readCont r2 with
            | some (b3, r3) =>
              match readCont r3 with
              | some (b4, r4) =>
                let n := (b1 - 0xF0) * 262144 + b2 * 4096 + b3 * 64 + b4
                if 0x10000 ≤ n ∧ n < 0x110000 then
                  (Char.ofNat n :: ·) <$> decodeCharsF fuel r4
                else none
              | none => none
            | none => none
          | none => none
        else none
    else (c :: ·) <$> decodeCharsF fuel cs

/-- Model of the JavaScript builtin `decodeURIComponent`; `none` models the
builtin throwing `URIError` on a malformed input. -/
def decodeURIComponent (s : String) : Option String :=
  (decodeCharsF s.data.length s.data).map String.mk

/-! ## JavaScript number coercion (`+string`, i.e. ES `ToNumber`) -/

/-- The result of coercing a JavaScript value to a number: `nan` models
`NaN`, `inf`/`negInf` the two infinities, and `num` a finite value. -/
inductive JsNum where
  | nan
  | inf
  | negInf
  | num (q : ℚ)
deriving DecidableEq, Repr

/-- Whitespace characters trimmed by ES `ToNumber` before parsing (the common
ones: ASCII whitespace, no-break space and the BOM). -/
def isJsSpace (c : Char) : Bool :=
  c ∈ [' ', '\t', '\n', '\r', Char.ofNat 11, Char.ofNat 12, Char.ofNat 160,
    Char.ofNat 65279]

/-- The numeric value of a list of decimal digit characters. -/
def digitsVal (ds : List Char) : Nat :=
  ds.foldl (fun a c => 10 * a + (c.toNat - '0'.toNat)) 0

/-- The numeric value of a list of digit characters in the given base, where
each digit is validated by `dv`; `none` if any character is invalid or the
list is empty. -/
def radixVal (dv : Char → Option Nat) (base : Nat) (ds : List Char) : Option Nat :=
  match ds with
  | [] => none
  | [c] => dv c
  | c :: rest => do
    let d ← dv c
    let r ← radixVal dv base rest
    pure (d * base ^ rest.length + r)

/-- A binary digit's value. -/
def binDigit (c : Char) : Option Nat :=
  if c = '0' then some 0 else if c = '1' then some 1 else none

/-- An octal digit's value. -/
def octDigit (c : Char) : Option Nat :=
  if '0' ≤ c ∧ c ≤ '7' then some (c.toNat - '0'.toNat) else none

/-- A decimal digit's value. -/
def decDigit (c : Char) : Option Nat :=
  if c.isDigit then some (c.toNat - '0'.toNat) else none

/-- Parses the decimal part of an ES string numeric literal:
`digits [. digits] [e|E [+|-] digits]`, requiring at least one digit in the
integer and fraction parts combined, and consuming the entire input. -/
def parseDecLit (cs : List Char) : Option ℚ :=
  let (ip, r1) := cs.span Char.isDigit
  let (fp, r2) :=
    match r1 with
    | '.' :: r =>
      let sp := r.span Char.isDigit
      (sp.1, sp.2)
    | _ => ([], r1)
  if ip.isEmpty ∧ fp.isEmpty then none
  else
    let base : ℚ := (digitsVal ip : ℚ) + (digitsVal fp : ℚ) / (10 : ℚ) ^ fp.length
    match r2 with
    | [] => some base
    | e :: r3 =>
      if e = 'e' ∨ e = 'E' then
        let (neg, r4) :=
          match r3 with
          | '+' :: r => (false, r)
          | '-' :: r => (true, r)
          | _ => (false, r3)
        let (ed, r5) := r4.span Char.isDigit
        if ed.isEmpty ∨ ¬r5.isEmpty then none
        else some (if neg then base / (10 : ℚ) ^ digitsVal ed
          else base * (10 : ℚ) ^ digitsVal ed)
      else none

/-- Parses a signable ES numeric body: `Infinity` or a decimal literal. -/
def parseSignedBody (neg : Bool) (cs : List Char) : JsNum :=
  if cs = ['I', 'n', 'f', 'i', 'n', 'i', 't', 'y'] then
    if neg then .negInf else .inf
  else
    match parseDecLit cs with
    | some q => .num (if neg then -q else q)
    | none => .nan

/-- Model of JavaScript string-to-number coercion (`+s` / `Number(s)`):
trims whitespace, maps the empty string to 0, accepts `0x`/`0o`/`0b` radix
literals (unsigned only), signed `Infinity`, and signed decimal literals;
everything else is `NaN`. -/
def jsToNumber (s : String) : JsNum :=
  let t := ((s.data.dropWhile isJsSpace).reverse.dropWhile isJsSpace).reverse
  match t with
  | [] => .num 0
  | '0' :: c :: rest =>
    if c = 'x' ∨ c = 'X' then
      match radixVal hexVal 16 rest with
      | some n => .num n
      | none => .nan
    else if c = 'o' ∨ c = 'O' then
      match radixVal octDigit 8 rest with
      | some n => .num n
      | none => .nan
    else if c = 'b' ∨ c = 'B' then
      match radixVal binDigit 2 rest with
      | some n => .num n
      | none => .nan
    else parseSignedBody false t
  | '+' :: r => parseSignedBody false r
  | '-' :: r => parseSignedBody true r
  | _ => parseSignedBody false t

/-! ## `JSON.parse` -/

/-- A parsed JSON document, as produced by `JSON.parse`.  Numbers are
modelled exactly as rationals. -/
inductive JsonValue where
  | null
  | bool (b : Bool)
  | num (q : ℚ)
  | str (s : String)
  | arr (elems : List JsonValue)
  | obj (members : List (String × JsonValue))

/-- JSON insignificant whitespace. -/
def jsonWs (c : Char) : Bool :=
  c ∈ [' ', '\t', '\n', '\r']

/-- Drops leading JSON whitespace. -/
def skipWs (cs : List Char) : List Char :=
  cs.dropWhile jsonWs

/-- Parses the body of a JSON string (after the opening quote), handling the
JSON escape sequences.  `\uXXXX` escapes are combined into code points
(surrogate pairs into one character; a lone surrogate is rejected, a
restriction of the model since Lean characters are scalar values). -/
def parseJsonStr : List Char → Option (List Char × List Char)
  | [] => none
  | c :: cs =>
    if c = '"' then some ([], cs)
    else if c = '\\' then
      match cs with
      | [] => none
      | e :: cs2 =>
        if e = 'u' then
          match cs2 with
          | h1 :: h2 :: h3 :: h4 :: cs3 => do
            let a ← hexVal h1
            let b ← hexVal h2
            let c2 ← hexVal h3
            let d ← hexVal h4
            let n := ((a * 16 + b) * 16 + c2) * 16 + d
            if 0xD800 ≤ n ∧ n < 0xDC00 then
              match cs3 with
              | '\\' :: 'u' :: g1 :: g2 :: g3 :: g4 :: cs4 => do
                let a2 ← hexVal g1
                let b2 ← hexVal g2
                let c3 ← hexVal g3
                let d2 ← hexVal g4
                let m := ((a2 * 16 + b2) * 16 + c3) * 16 + d2
                if 0xDC00 ≤ m ∧ m < 0xE000 then
                  let cp := 0x10000 + (n - 0xD800) * 1024 + (m - 0xDC00)
                  let (body, rest) ← parseJsonStr cs4
                  pure (Char.ofNat cp :: body, rest)
                else none
              | _ => none
            else if 0xDC00 ≤ n ∧ n < 0xE000 then none
            else do
              let (body, rest) ← parseJsonStr cs3
              pure (Char.ofNat n :: body, rest)
          | _ => none
        else do
          let ec ←
            if e = '"' then some '"'
            else if e = '\\' then some '\\'
            else if e = '/' then some '/'
            else if e = 'b' then some (Char.ofNat 8)
            else if e = 'f' then some (Char.ofNat 12)
            else if e = 'n' then some '\n'
            else if e = 'r' then some '\r'
            else if e = 't' then some '\t'
            else none
          let (body, rest) ← parseJsonStr cs2
          pure (ec :: body, rest)
    else if c.toNat < 0x20 then none
    else do
      let (body, rest) ← parseJsonStr cs
      pure (c :: body, rest)

/-- Parses a JSON number per the JSON grammar: `-? int frac? exp?` with
`int = 0 | [1-9][0-9]*`. -/
def parseJsonNum (cs : List Char) : Option (ℚ × List Char) :=
  let (neg, cs1) :=
    match cs with
    | '-' :: r => (true, r)
    | _ => (false, cs)
  let ipR : Option (List Char × List Char) :=
    match cs1 with
    | '0' :: r => some (['0'], r)
    | c :: _ =>
      if c.isDigit then some (cs1.span Char.isDigit) else none
    | [] => none
  match ipR with
  | none => none
  | some (ip, r1) =>
    let (fp, r2) :=
      match r1 with
      | '.' :: r =>
        let sp := r.span Char.isDigit
        (sp.1, sp.2)
      | _ => ([], r1)
    if (match r1 with | '.' :: _ => fp.isEmpty | _ => false) then none
    else
      let mag : ℚ := (digitsVal ip : ℚ) + (digitsVal fp : ℚ) / (10 : ℚ) ^ fp.length
      let expR : Option (ℚ × List Char) :=
        match r2 with
        | e :: r3 =>
          if e = 'e' ∨ e = 'E' then
            let (eneg, r4) :=
              match r3 with
              | '+' :: r => (false, r)
              | '-' :: r => (true, r)
              | _ => (false, r3)
            let (ed, r5) := r4.span Char.isDigit
            if ed.isEmpty then none
            else some ((if eneg then mag / (10 : ℚ) ^ digitsVal ed
              else mag * (10 : ℚ) ^ digitsVal ed), r5)
          else some (mag, r2)
        | [] => some (mag, r2)
      match expR with
      | none => none
      | some (v, rest) => some ((if neg then -v else v), rest)

mutual

/-- Parses one JSON value, fuel-bounded. -/
def parseJsonVal : Nat → List Char → Option (JsonValue × List Char)
  | 0, _ => none
  | Nat.succ fuel, cs =>
    match skipWs cs with
    | [] => none
    | 'n' :: 'u' :: 'l' :: 'l' :: r => some (.null, r)
    | 't' :: 'r' :: 'u' :: 'e' :: r => some (.bool true, r)
    | 'f' :: 'a' :: 'l' :: 's' :: 'e' :: r => some (.bool false, r)
    | '"' :: r => do
      let (body, rest) ← parseJsonStr r
      pure (.str ⟨body⟩, rest)
    | '[' :: r =>
      match skipWs r with
      | ']' :: r2 => some (.arr [], r2)
      | _ => do
        let (vs, rest) ← parseJsonItems fuel r
        pure (.arr vs, rest)
    | '{' :: r =>
      match skipWs r with
      | '}' :: r2 => some (.obj [], r2)
      | _ => do
        let (ms, rest) ← parseJsonMembers fuel r
        pure (.obj ms, rest)
    | c :: _ =>
      if c = '-' ∨ c.isDigit then do
        let (q, rest) ← parseJsonNum (skipWs cs)
        pure (.num q, rest)
      else none

/-- Parses the comma-separated elements of a JSON array up to and including
the closing bracket, fuel-bounded. -/
def parseJsonItems : Nat → List Char → Option (List JsonValue × List Char)
  | 0, _ => none
  | Nat.succ fuel, cs => do
    let (v, r) ← parseJsonVal fuel cs
    match skipWs r with
    | ',' :: r2 => do
      let (vs, rest) ← parseJsonItems fuel r2
      pure (v :: vs, rest)
    | ']' :: r2 => pure ([v], r2)
    | _ => none

/-- Parses the comma-separated members of a JSON object up to and including
the closing brace, fuel-bounded. -/
def parseJsonMembers : Nat → List Char → Option (List (String × JsonValue) × List Char)
  | 0, _ => none
  | Nat.succ fuel, cs =>
    match skipWs cs with
    | '"' :: r => do
      let (key, r1) ← parseJsonStr r
      match skipWs r1 with
      | ':' :: r2 => do
        let (v, r3) ← parseJsonVal fuel r2
        match skipWs r3 with
        | ',' :: r4 => do
          let (ms, rest) ← parseJsonMembers fuel r4
          pure ((⟨key⟩, v) :: ms, rest)
        | '}' :: r4 => pure ([(⟨key⟩, v)], r4)
        | _ => none
      | _ => none
    | _ => none

end

/-- Model of the JavaScript builtin `JSON.parse`; `none` models the builtin
throwing `SyntaxError`. -/
def jsonParse (s : String) : Option JsonValue :=
  match parseJsonVal (s.data.length + 1) s.data with
  | some (v, rest) => if (skipWs rest).isEmpty then some v else none
  | none => none

/-! ## The filter model (`src/lib/api/filtering.ts`)

Filter values are the tagged union `IsFilter | NotFilter | ExistFilter |
IncludeFilter | ExcludeFilter | ComparisonFilter` from the source.  JavaScript
`number` literals appearing in filters are modelled as integers (the decimal
printing of non-integral doubles is out of scope of the embedding). -/

/-- A `Primitive` from the source: `string | number | null`. -/
inductive JsPrim where
  | pstr (s : String)
  | pnum (n : Int)
  | pnull
deriving DecidableEq, Repr

/-- A regular-expression literal; only its `toString` form (`/source/flags`)
is observable to the encoder. -/
structure RegexLit where
  source : String
  flags : String
deriving DecidableEq, Repr

/-- A regular expression's `toString()` form. -/
def regexToString (r : RegexLit) : String :=
  "/" ++ r.source ++ "/" ++ r.flags

/-- The value held by a `NotFilter`: `Primitive | RegExp`. -/
inductive NeVal where
  | prim (p : JsPrim)
  | regex (r : RegexLit)
deriving DecidableEq, Repr

/-- The source's `Filter` union. -/
inductive Filter where
  /-- `IsFilter`, primitive case. -/
  | prim (p : JsPrim)
  /-- `IsFilter`, pattern case. -/
  | regex (r : RegexLit)
  /-- `ExistFilter`. -/
  | boolv (b : Bool)
  /-- `IncludeFilter`. -/
  | list (ps : List JsPrim)
  /-- `NotFilter`. -/
  | ne (v : NeVal)
  /-- `ExcludeFilter`. -/
  | nin (ps : List JsPrim)
  /-- `ComparisonFilter`; each field mirrors the optional bound of the same
  name in the source. -/
  | cmp (gt lt gte lte : Option Int)
deriving DecidableEq, Repr

/-- Element-wise encoding of an array filter's elements (the source's
`encode` mapped over an array): strings are percent-encoded, other
primitives pass through. -/
def encodePrimElem : JsPrim → JsPrim
  | .pstr s => .pstr (encodeURIComponent s)
  | p => p

/-- The source's `encode`: a string or pattern becomes its percent-encoded
string form, an array is encoded element-wise, and any other filter is
returned unmodified. -/
def encode : Filter → Filter
  | .prim (.pstr s) => .prim (.pstr (encodeURIComponent s))
  | .regex r => .prim (.pstr (encodeURIComponent (regexToString r)))
  | .list ps => .list (ps.map encodePrimElem)
  | f => f

/-- A primitive as rendered by a JavaScript template literal
(`null` prints as `null`). -/
def primTemplate : JsPrim → String
  | .pstr s => s
  | .pnum n => jsIntRepr n
  | .pnull => "null"

/-- A primitive as rendered by `Array.prototype.join`
(`null` prints as the empty string). -/
def primJoinElem : JsPrim → String
  | .pstr s => s
  | .pnum n => jsIntRepr n
  | .pnull => ""

/-- A `NotFilter`'s value as rendered by a template literal. -/
def neTemplate : NeVal → String
  | .prim p => primTemplate p
  | .regex r => regexToString r

/-- The query-string fragments emitted for one (already key-encoded,
already value-encoded) filter entry — the body of the source's `flatMap`
over the entries of the filter map. -/
def filterFragments (key : String) : Filter → List String
  | .boolv b => [(if b then "" else "!") ++ key]
  | .list ps => [key ++ "=" ++ jsJoin "," (ps.map primJoinElem)]
  | .prim p => [key ++ "=" ++ primTemplate p]
  | .regex r => [key ++ "=" ++ regexToString r]
  | .ne v => [key ++ "!=" ++ neTemplate v]
  | .nin ps => [key ++ "!=" ++ jsJoin "," (ps.map primJoinElem)]
  | .cmp gt lt gte lte =>
    (match gt with | some n => [key ++ ">" ++ jsIntRepr n] | none => []) ++
    (match lt with | some n => [key ++ "<" ++ jsIntRepr n] | none => []) ++
    (match gte with | some n => [key ++ ">=" ++ jsIntRepr n] | none => []) ++
    (match lte with | some n => [key ++ "<=" ++ jsIntRepr n] | none => [])

/-- The source's `stringifyFilters`: keys and values are encoded, each entry
is turned into its fragments in entry order, and all fragments are joined
with ampersands.  The filter map is modelled as an association list in object
insertion order. -/
def stringifyFilters (filters : List (String × Filter)) : String :=
  jsJoin "&"
    ((filters.map (fun kv =>
      filterFragments (encodeURIComponent kv.1) (encode kv.2))).flatten)

/-! ## The query composer (`createInterface`, lines 251–263) -/

/-- The state of an optional request-option field at runtime: the key can be
absent, present with value `undefined`, present with value `null`, or
present with a value. -/
inductive JsOpt (α : Type) where
  | absent
  | undef
  | nullv
  | val (a : α)
deriving DecidableEq, Repr

/-- `'k' in options ? options.k : undefined` followed by lodash
`omitBy(..., isNil)`: only a present, non-nil value survives. -/
def JsOpt.toOption {α : Type} : JsOpt α → Option α
  | .val a => some a
  | _ => none

/-- The per-call options object, as consulted by the query composer: the
pagination fields, sort field and filter map of `ApiManyOptions` (an `id` +
options call passes an options object with none of these keys). -/
structure ManyOptions where
  limit : JsOpt Int := .absent
  page : JsOpt Int := .absent
  offset : JsOpt Int := .absent
  order : JsOpt String := .absent
  filter : JsOpt (List (String × Filter)) := .absent
deriving Repr

/-- Node's `querystring.escape` — the same escaping as
`encodeURIComponent` (identical no-escape character set). -/
def qsEscape (s : String) : String :=
  encodeURIComponent s

/-- Node's `querystring.stringify` on a flat object of primitive values
(given here with values already rendered to strings): `escape(key)=
escape(value)` pairs joined by ampersands, in key insertion order. -/
def qsStringify (entries : List (String × String)) : String :=
  jsJoin "&" (entries.map (fun kv => qsEscape kv.1 ++ "=" ++ qsEscape kv.2))

/-- The `queryObject` of `createInterface`: the four pagination/sort fields
in declaration order — `limit`, `page`, `offset`, `order` — with nil
(absent/undefined/null) fields omitted, values rendered as JavaScript
renders primitives in query strings. -/
def queryObject (o : ManyOptions) : List (String × String) :=
  (match o.limit.toOption with | some n => [("limit", jsIntRepr n)] | none => []) ++
  (match o.page.toOption with | some n => [("page", jsIntRepr n)] | none => []) ++
  (match o.offset.toOption with | some n => [("offset", jsIntRepr n)] | none => []) ++
  (match o.order.toOption with | some s => [("order", s)] | none => [])

/-- The filter map consulted by `createInterface`:
`('filter' in options && options.filter) || {}`. -/
def filterOf (o : ManyOptions) : List (String × Filter) :=
  match o.filter.toOption with
  | some f => f
  | none => []

/-- The final query string given the pagination part and a pre-built filter
fragment: `compact([stringify(queryObject), filterQuery]).join('&')`. -/
def composeParts (o : ManyOptions) (filterQuery : String) : String :=
  jsJoin "&" (jsCompact [qsStringify (queryObject o), filterQuery])

/-- The query string built by `createInterface` for a call's options. -/
def composeQuery (o : ManyOptions) : String :=
  composeParts o (stringifyFilters (filterOf o))

/-! ## The lazy resource composer (`createInterface` / `buildApi`) -/

/-- A record id as passed to an endpoint interface: `string | number`. -/
inductive JsId where
  | str (s : String)
  | num (n : Int)
deriving DecidableEq, Repr

/-- JavaScript falsiness of an id value: the empty string and the number 0
are falsy (these are the id values lodash `compact` removes). -/
def jsFalsy : JsId → Bool
  | .str s => s = ""
  | .num n => n = 0

/-- An id as rendered into the path by `join('/')`. -/
def jsIdRepr : JsId → String
  | .str s => s
  | .num n => jsIntRepr n

/-- The request path of `createInterface`:
`compact([endpoint, id]).join('/')`, where the id defaults to the empty
string when the call supplied none. -/
def requestPath (endpoint : String) (id : Option JsId) : String :=
  let idVal := id.getD (.str "")
  jsJoin "/" (jsCompact [endpoint, if jsFalsy idVal then "" else jsIdRepr idVal])

/-- The `one` property of a resource definition as seen at runtime:
absent, a boolean, or a nested `ApiDefinition`.  A nested definition maps
endpoint names either to a raw resource class (`none`, which `buildApi`
wraps with `one: true`) or to a full resource definition carrying its own
`one` property (`some`). -/
inductive OneSpec where
  | absent
  | flag (b : Bool)
  | nested (entries : List (String × Option OneSpec))

/-- The `one` property of the child endpoint named by an entry of a nested
definition: a raw resource is wrapped by `buildApi` with `one: true`. -/
def childOne : Option OneSpec → OneSpec
  | none => .flag true
  | some o => o

/-- The shape of one call to an endpoint interface, after the source's
argument disambiguation: no arguments, a single options object, a primitive
id, or a primitive id followed by a base-options object. -/
inductive CallShape where
  | noArgs
  | optsOnly (o : ManyOptions)
  | idOnly (i : JsId)
  | idOpts (i : JsId) (o : ManyOptions)

/-- The options object a call shape supplies to the query composer.  An
id-only or no-argument call has no options object (the source substitutes
`{}`), and an id + options call supplies a `ApiBaseOptions` object, which
has none of the pagination/sort/filter keys. -/
def CallShape.options : CallShape → ManyOptions
  | .optsOnly o => o
  | _ => {}

/-- The id a call shape supplies, if any. -/
def CallShape.id? : CallShape → Option JsId
  | .idOnly i => some i
  | .idOpts i _ => some i
  | _ => none

/-- The deferred request handle returned by one interface call: the request
path and query it will use when forced, and the child-endpoint accessors
merged onto it, as `(name, child endpoint path, child one-property)`
triples. -/
structure Handle where
  path : String
  query : String
  children : List (String × String × OneSpec)

/-- One call of the function returned by `createInterface`: disambiguates
the arguments, builds the path and query string, and merges child accessors
onto the handle whenever the definition's `one` property is an object
(`buildApi(path, one)` maps each child name to the endpoint
`path + '/' + name`). -/
def callInterface (endpoint : String) (one : OneSpec) (shape : CallShape) : Handle :=
  let path := requestPath endpoint shape.id?
  { path := path
    query := composeQuery shape.options
    children :=
      match one with
      | .nested entries =>
        entries.map (fun kv => (kv.1, path ++ "/" ++ kv.1, childOne kv.2))
      | _ => [] }

/-- The API origin (`src/lib/api/index.ts`, line 209). -/
def origin : String :=
  "https://localhost:8000"

/-- The URL a handle requests when forced:
`origin + '/' + path + '?' + query`. -/
def requestUrl (h : Handle) : String :=
  origin ++ "/" ++ h.path ++ "?" ++ h.query

/-! ## The request executor (`createInterface`, lines 267–340) -/

/-- A response as consumed by the executor: status, status text, the
`Retry-After` header (`none` models `headers.get` returning `null`), and
the outcome of the async `json()` accessor (`none` models `json()`
rejecting, e.g. with a `SyntaxError` on a non-JSON body). -/
structure EmbResponse where
  status : Nat
  statusText : String
  retryAfter : Option String
  jsonResult : Option JsonValue

/-- The result of one transport attempt: a response, or a thrown failure of
one of the classified causes (`TypeError`, an abort, anything else — the
last already carrying its `JSON.stringify` form). -/
inductive FetchResult where
  | resp (r : EmbResponse)
  | typeError (msg : String)
  | abortError (msg : String)
  | otherError (stringified : String)

/-- `Response.ok`: a status in the inclusive range 200–299. -/
def respOk (status : Nat) : Bool :=
  200 ≤ status && status ≤ 299

/-- The backo2 `duration()` for its `attempts` counter value `k` under the
executor's configuration `{ min: 100, max: 20000 }` (factor 2, no jitter):
`min(100 * 2^k, 20000)`. -/
def backoffDuration (k : Nat) : Nat :=
  min (100 * 2 ^ k) 20000

/-- The settled outcome of a forced handle. -/
inductive Outcome where
  /-- `resolve(body)` on a success status. -/
  | resolved (body : JsonValue)
  /-- `resolve(null)` on a 404 with `nullOn404` enabled. -/
  | resolvedNull
  /-- `reject(new ApiError(status, statusText, { response, body }))`. -/
  | apiError (status : Nat) (statusText : String) (body : JsonValue)
  /-- `reject(new MaxRetriesExceededError(...))` with the last response. -/
  | maxRetriesExceeded (status : Nat) (statusText : String) (body : JsonValue)
  /-- `reject(new NetworkError(message))`. -/
  | networkError (msg : String)
  /-- `reject(new AbortError(message))`. -/
  | abortError (msg : String)
  /-- `reject(new UnknownError(JSON.stringify(e)))`. -/
  | unknownError (stringified : String)
  /-- Model artifact: the supplied transport trace ran out before the
  executor settled. -/
  | outOfAttempts

/-- The observable trace of one executor run: its settled outcome, the
number of transport attempts made, and the delays awaited between
attempts (in the order they were awaited). -/
structure ExecResult where
  outcome : Outcome
  attempts : Nat
  delays : List JsNum

/-- `JSON.stringify` of an `Error` instance: errors have no enumerable own
properties, so they stringify to the empty object. -/
def stringifiedError : String :=
  "\x7b\x7d"

/-- The delay chosen for one 429 response and the backoff counter after it:
`+(response.headers.get('Retry-After') || backoff.duration())`.  The header
string is coerced with `+` when it is present and non-empty (truthy);
`backoff.duration()` is evaluated — advancing its counter — only when the
header is absent or empty. -/
def retryDelayStep (ra : Option String) (k : Nat) : JsNum × Nat :=
  match ra with
  | some s =>
    if s = "" then (.num (backoffDuration k), k + 1) else (jsToNumber s, k)
  | none => (.num (backoffDuration k), k + 1)

/-- The executor's retry loop.  `fetches` supplies the successive transport
attempts, `retries` is the source's `retries` counter, `backoffK` the
backo2 `attempts` counter, `delays` the delays awaited so far, and `made`
the number of attempts made so far.  Each iteration mirrors the source's
do/while body: fetch, parse the body (a parse failure is a thrown
`SyntaxError`, classified as an unknown failure), then resolve on a success
status, resolve null on a 404 with `nullOn404`, delay and retry on a 429 —
re-entering only while `++retries <= maxRetries`, and rejecting with the
retry-limit error carrying the last response otherwise — and reject with a
generic `ApiError` on any other status. -/
def runAttempts (nullOn404 : Bool) (maxRetries : Nat) :
    List FetchResult → Nat → Nat → List JsNum → Nat → ExecResult
  | [], _, _, delays, made =>
    { outcome := .outOfAttempts, attempts := made, delays := delays }
  | .typeError m :: _, _, _, delays, made =>
    { outcome := .networkError m, attempts := made + 1, delays := delays }
  | .abortError m :: _, _, _, delays, made =>
    { outcome := .abortError m, attempts := made + 1, delays := delays }
  | .otherError s :: _, _, _, delays, made =>
    { outcome := .unknownError s, attempts := made + 1, delays := delays }
  | .resp r :: rest, retries, backoffK, delays, made =>
    match r.jsonResult with
    | none =>
      { outcome := .unknownError stringifiedError, attempts := made + 1,
        delays := delays }
    | some body =>
      if respOk r.status then
        { outcome := .resolved body, attempts := made + 1, delays := delays }
      else if r.status = 404 ∧ nullOn404 then
        { outcome := .resolvedNull, attempts := made + 1, delays := delays }
      else if r.status = 429 then
        let delayed := retryDelayStep r.retryAfter backoffK
        if retries + 1 ≤ maxRetries then
          runAttempts nullOn404 maxRetries rest (retries + 1) delayed.2
            (delays ++ [delayed.1]) (made + 1)
        else
          { outcome := .maxRetriesExceeded r.status r.statusText body,
            attempts := made + 1, delays := delays ++ [delayed.1] }
      else
        { outcome := .apiError r.status r.statusText body,
          attempts := made + 1, delays := delays }

/-- A full executor run over a transport trace, with the source's initial
state: `retries = 0`, a fresh backoff, no delays awaited. -/
def execute (fetches : List FetchResult) (nullOn404 : Bool) (maxRetries : Nat) :
    ExecResult :=
  runAttempts nullOn404 maxRetries fetches 0 0 [] 0

/-! ## The stubbed transport (`testFetch`) and the `v1` `book` endpoint -/

/-- The stubbed fetch of the source (`createInterface`, lines 277–279):
for any request it returns a response whose status is 200 and whose body
text is the first argument — the request URL. -/
structure TestResponse where
  status : Nat
  statusText : String
  bodyText : String

/-- `testFetch`: a 200 response whose body is the request URL (the
`Response` constructor's default status text is the empty string). -/
def testFetch (url : String) : TestResponse :=
  { status := 200, statusText := "", bodyText := url }

/-- A `TestResponse` as consumed by the executor: `json()` is
`JSON.parse` of the body text, and no `Retry-After` header is present. -/
def TestResponse.toEmb (r : TestResponse) : EmbResponse :=
  { status := r.status, statusText := r.statusText, retryAfter := none,
    jsonResult := jsonParse r.bodyText }

/-- Forcing a handle against the stubbed transport: every attempt fetches
the handle's URL through `testFetch`. -/
def forceWithTestFetch (h : Handle) (nullOn404 : Bool) (maxRetries : Nat) :
    ExecResult :=
  execute (List.replicate (maxRetries + 1)
    (.resp (testFetch (requestUrl h)).toEmb)) nullOn404 maxRetries

/-- The `one` property of the `v1` schema's `book` endpoint
(`src/lib/api/v1/index.ts`): a nested definition with the single child
`chapter`, a raw resource class. -/
def bookOne : OneSpec :=
  .nested [("chapter", none)]

/-- The endpoint path `buildApi` gives the `book` interface:
`${prefix}/${key}` with the empty top-level prefix. -/
def bookEndpoint : String :=
  "/book"

/-! ## Helper lemmas -/


lemma hexVal_hexDigitChar {m : Nat} (h : m < 16) : hexVal (hexDigitChar m) = some m := by
  interval_cases m <;> decide

lemma char_toNat_valid (c : Char) :
    c.toNat < 0xD800 ∨ (0xDFFF < c.toNat ∧ c.toNat < 0x110000) := c.valid

lemma readByte_digits {b : Nat} (hb : b < 256) (rest : List Char) :
    readByte (hexDigitChar (b / 16) :: hexDigitChar (b % 16) :: rest) = some (b, rest) := by
  have h1 : b / 16 < 16 := by omega
  have h2 : b % 16 < 16 := by omega
  simp [readByte, hexVal_hexDigitChar h1, hexVal_hexDigitChar h2]
  omega

lemma readPercentByte_pb {b : Nat} (hb : b < 256) (rest : List Char) :
    readPercentByte (percentByte b ++ rest) = some (b, rest) := by
  simp [percentByte, readPercentByte, readByte_digits hb]

lemma readCont_pb {b : Nat} (h1 : 0x80 ≤ b) (h2 : b < 0xC0) (rest : List Char) :
    readCont (percentByte b ++ rest) = some (b - 0x80, rest) := by
  simp [readCont, readPercentByte_pb (show b < 256 by omega), h1, h2]


lemma decodeCharsF_cons_ne (fuel : Nat) {c : Char} (hc : c ≠ '%') (cs : List Char) :
    decodeCharsF (fuel + 1) (c :: cs) = (c :: ·) <$> decodeCharsF fuel cs := by
  simp [decodeCharsF, hc]

lemma decode_step (c : Char) (rest : List Char) (fuel : Nat) :
    decodeCharsF (fuel + 1) (encodeChar c ++ rest) = (c :: ·) <$> decodeCharsF fuel rest := by
  by_cases hu : uriUnreserved c
  · have hc : c ≠ '%' := by
      intro e; subst e; simp [uriUnreserved] at hu
    simp [encodeChar, hu, decodeCharsF_cons_ne fuel hc]
  · have hv := char_toNat_valid c
    set n := c.toNat with hn
    have hofn : Char.ofNat n = c := Char.ofNat_toNat c
    rw [encodeChar, if_neg hu, utf8Bytes]
    by_cases h1 : n < 0x80
    · rw [if_pos h1]
      simp only [List.map_cons, List.map_nil, List.flatten, List.append_nil, List.nil_append]
      rw [percentByte]
      simp only [List.cons_append, List.nil_append]
      rw [decodeCharsF]
      rw [if_pos rfl, readByte_digits (show n < 256 by omega)]
      dsimp only
      rw [if_pos h1, hofn]
    · rw [if_neg h1]
      by_cases h2 : n < 0x800
      · rw [if_pos h2]
        simp only [List.map_cons, List.map_nil, List.flatten, List.append_nil,
          List.nil_append, List.append_assoc]
        rw [percentByte]
        simp only [List.cons_append, List.nil_append]
        rw [decodeCharsF, if_pos rfl,
          readByte_digits (show 0xC0 + n / 64 < 256 by omega)]
        dsimp only
        rw [if_neg (show ¬(0xC0 + n / 64 < 0x80) by omega),
          if_neg (show ¬(0xC0 + n / 64 < 0xC0) by omega),
          if_pos (show 0xC0 + n / 64 < 0xE0 by omega)]
        rw [readCont_pb (show 0x80 ≤ 0x80 + n % 64 by omega) (show 0x80 + n % 64 < 0xC0 by omega)]
        dsimp only
        rw [show (0xC0 + n / 64 - 0xC0) * 64 + (0x80 + n % 64 - 0x80) = n by omega]
        rw [if_pos (show 0x80 ≤ n by omega), hofn]
      · rw [if_neg h2]
        by_cases h3 : n < 0x10000
        · rw [if_pos h3]
          simp only [List.map_cons, List.map_nil, List.flatten, List.append_nil,
            List.nil_append, List.append_assoc]
          rw [percentByte]
          simp only [List.cons_append, List.nil_append]
          rw [decodeCharsF, if_pos rfl,
            readByte_digits (show 0xE0 + n / 4096 < 256 by omega)]
          dsimp only
          rw [if_neg (show ¬(0xE0 + n / 4096 < 0x80) by omega),
            if_neg (show ¬(0xE0 + n / 4096 < 0xC0) by omega),
            if_neg (show ¬(0xE0 + n / 4096 < 0xE0) by omega),
            if_pos (show 0xE0 + n / 4096 < 0xF0 by omega)]
          rw [readCont_pb (show 0x80 ≤ 0x80 + n / 64 % 64 by omega)
            (show 0x80 + n / 64 % 64 < 0xC0 by omega)]
          dsimp only
          rw [readCont_pb (show 0x80 ≤ 0x80 + n % 64 by omega)
            (show 0x80 + n % 64 < 0xC0 by omega)]
          dsimp only
          rw [show (0xE0 + n / 4096 - 0xE0) * 4096 + (0x80 + n / 64 % 64 - 0x80) * 64 +
            (0x80 + n % 64 - 0x80) = n by omega]
          rw [if_pos (show 0x800 ≤ n ∧ ¬(0xD800 ≤ n ∧ n < 0xE000) by omega), hofn]
        · rw [if_neg h3]
          simp only [List.map_cons, List.map_nil, List.flatten, List.append_nil,
            List.nil_append, List.append_assoc]
          rw [percentByte]
          simp only [List.cons_append, List.nil_append]
          rw [decodeCharsF, if_pos rfl,
            readByte_digits (show 0xF0 + n / 262144 < 256 by omega)]
          dsimp only
          rw [if_neg (show ¬(0xF0 + n / 262144 < 0x80) by omega),
            if_neg (show ¬(0xF0 + n / 262144 < 0xC0) by omega),
            if_neg (show ¬(0xF0 + n / 262144 < 0xE0) by omega),
            if_neg (show ¬(0xF0 + n / 262144 < 0xF0) by omega),
            if_pos (show 0xF0 + n / 262144 < 0xF8 by omega)]
          rw [readCont_pb (show 0x80 ≤ 0x80 + n / 4096 % 64 by omega)
            (show 0x80 + n / 4096 % 64 < 0xC0 by omega)]
          dsimp only
          rw [readCont_pb (show 0x80 ≤ 0x80 + n / 64 % 64 by omega)
            (show 0x80 + n / 64 % 64 < 0xC0 by omega)]
          dsimp only
          rw [readCont_pb (show 0x80 ≤ 0x80 + n % 64 by omega)
            (show 0x80 + n % 64 < 0xC0 by omega)]
          dsimp only
          rw [show (0xF0 + n / 262144 - 0xF0) * 262144 + (0x80 + n / 4096 % 64 - 0x80) * 4096 +
            (0x80 + n / 64 % 64 - 0x80) * 64 + (0x80 + n % 64 - 0x80) = n by omega]
          rw [if_pos (show 0x10000 ≤ n ∧ n < 0x110000 by omega), hofn]


/-- The encoding of a character list (the data of `encodeURIComponent`). -/
lemma encodeURIComponent_data (s : String) :
    (encodeURIComponent s).data = (s.data.map encodeChar).flatten := rfl

lemma encodeChar_ne_nil (c : Char) : encodeChar c ≠ [] := by
  unfold encodeChar utf8Bytes
  split
  · simp
  · split
    · simp [percentByte]
    · split
      · simp [percentByte]
      · split <;> simp [percentByte]

lemma length_le_length_flatten_encode (cs : List Char) :
    cs.length ≤ ((cs.map encodeChar).flatten).length := by
  induction cs with
  | nil => simp
  | cons c cs ih =>
    simp only [List.map_cons, List.flatten_cons, List.length_append, List.length_cons]
    have h1 : 1 ≤ (encodeChar c).length := by
      rcases (List.length_pos).2 (encodeChar_ne_nil c) with h
      omega
    omega

lemma decodeCharsF_encode_flatten (cs : List Char) :
    ∀ fuel, cs.length ≤ fuel →
      decodeCharsF fuel ((cs.map encodeChar).flatten) = some cs := by
  induction cs with
  | nil => intro fuel _; cases fuel <;> simp [decodeCharsF]
  | cons c cs ih =>
    intro fuel hf
    cases fuel with
    | zero => simp at hf
    | succ fuel =>
      simp only [List.map_cons, List.flatten_cons]
      rw [decode_step, ih fuel (by simp at hf; omega)]
      rfl

/-- Percent-encoding round-trips: decoding an encoded string recovers the
original exactly. -/
theorem decodeURIComponent_encodeURIComponent (s : String) :
    decodeURIComponent (encodeURIComponent s) = some s := by
  unfold decodeURIComponent
  rw [encodeURIComponent_data,
    decodeCharsF_encode_flatten s.data _ (length_le_length_flatten_encode s.data)]
  rfl

/-- A character produced by `encodeChar` is the unreserved original, a
percent sign, or an uppercase hex digit. -/
lemma mem_encodeChar {x c : Char} (hx : x ∈ encodeChar c) :
    (x = c ∧ uriUnreserved c) ∨ x = '%' ∨ ∃ m, x = hexDigitChar m := by
  unfold encodeChar at hx
  by_cases hu : uriUnreserved c
  · rw [if_pos hu] at hx
    simp at hx
    exact Or.inl ⟨hx, hu⟩
  · rw [if_neg hu] at hx
    right
    rcases List.mem_flatten.1 hx with ⟨l, hl, hxl⟩
    rcases List.mem_map.1 hl with ⟨b, _, rfl⟩
    simp only [percentByte, List.mem_cons, List.not_mem_nil, or_false] at hxl
    rcases hxl with rfl | rfl | rfl
    · exact Or.inl rfl
    · exact Or.inr ⟨b / 16, rfl⟩
    · exact Or.inr ⟨b % 16, rfl⟩

/-- Characters appearing in a percent-encoded string avoid any character
that is not unreserved, not the percent sign and not a hex digit. -/
lemma mem_encodeURIComponent_ne {bad : Char} (hbadU : uriUnreserved bad = false)
    (hbadP : bad ≠ '%') (hbadH : ∀ m, hexDigitChar m ≠ bad) :
    ∀ {s : String} {x : Char}, x ∈ (encodeURIComponent s).data → x ≠ bad := by
  intro s x hx
  rw [encodeURIComponent_data] at hx
  rcases List.mem_flatten.1 hx with ⟨l, hl, hxl⟩
  rcases List.mem_map.1 hl with ⟨c, _, rfl⟩
  rcases mem_encodeChar hxl with ⟨rfl, hcu⟩ | rfl | ⟨m, rfl⟩
  · intro e; subst e; rw [hcu] at hbadU; cases hbadU
  · exact hbadP.symm
  · exact hbadH m

lemma hexDigitChar_ne_comma (m : Nat) : hexDigitChar m ≠ ',' := by
  unfold hexDigitChar; split <;> decide

lemma hexDigitChar_ne_amp (m : Nat) : hexDigitChar m ≠ '&' := by
  unfold hexDigitChar; split <;> decide

/-- An encoded string never contains a comma. -/
lemma encodeURIComponent_no_comma {s : String} {x : Char}
    (hx : x ∈ (encodeURIComponent s).data) : x ≠ ',' :=
  mem_encodeURIComponent_ne (by decide) (by decide) hexDigitChar_ne_comma hx

/-- An encoded string never contains an ampersand. -/
lemma encodeURIComponent_no_amp {s : String} {x : Char}
    (hx : x ∈ (encodeURIComponent s).data) : x ≠ '&' :=
  mem_encodeURIComponent_ne (by decide) (by decide) hexDigitChar_ne_amp hx


/-! Splitting and joining lemmas. -/

lemma splitChars_ne_nil (sep : Char) (cs : List Char) : splitChars sep cs ≠ [] := by
  cases cs with
  | nil => simp [splitChars]
  | cons c cs =>
    rw [splitChars]
    cases splitChars sep cs with
    | nil => simp
    | cons p ps =>
      dsimp only
      split <;> simp

lemma splitChars_sep_free {sep : Char} {xs : List Char} (h : sep ∉ xs) :
    splitChars sep xs = [xs] := by
  induction xs with
  | nil => rfl
  | cons x xs ih =>
    have hx : x ≠ sep := by intro e; exact h (by simp [e])
    have hxs : sep ∉ xs := fun hmem => h (List.mem_cons_of_mem _ hmem)
    unfold splitChars
    rw [ih hxs]
    simp [hx]

lemma splitChars_append_sep {sep : Char} {xs : List Char} (h : sep ∉ xs)
    (ys : List Char) :
    splitChars sep (xs ++ sep :: ys) = xs :: splitChars sep ys := by
  induction xs with
  | nil =>
    simp only [List.nil_append]
    rw [splitChars]
    rcases hne : splitChars sep ys with _ | ⟨p, ps⟩
    · exact absurd hne (splitChars_ne_nil sep ys)
    · simp
  | cons x xs ih =>
    have hx : x ≠ sep := by intro e; exact h (by simp [e])
    have hxs : sep ∉ xs := fun hmem => h (List.mem_cons_of_mem _ hmem)
    simp only [List.cons_append]
    rw [splitChars, ih hxs]
    simp [hx]

lemma jsJoin_cons (sep : String) (s : String) {rest : List String}
    (h : rest ≠ []) : jsJoin sep (s :: rest) = s ++ sep ++ jsJoin sep rest := by
  cases rest with
  | nil => exact absurd rfl h
  | cons t ts => rfl

/-- Splitting a comma-join of comma-free pieces recovers the pieces. -/
lemma jsSplit_jsJoin {pieces : List String} (hne : pieces ≠ [])
    (h : ∀ p ∈ pieces, ',' ∉ p.data) :
    jsSplit ',' (jsJoin "," pieces) = pieces := by
  induction pieces with
  | nil => exact absurd rfl hne
  | cons s rest ih =>
    cases rest with
    | nil =>
      have hs : ',' ∉ s.data := h s (by simp)
      simp only [jsJoin, jsSplit]
      rw [splitChars_sep_free hs]
      rfl
    | cons t ts =>
      have hs : ',' ∉ s.data := h s (by simp)
      have hrest : ∀ p ∈ t :: ts, ',' ∉ p.data := fun p hp =>
        h p (List.mem_cons_of_mem _ hp)
      rw [jsJoin_cons _ _ (by simp)]
      unfold jsSplit
      have hdata : (s ++ "," ++ jsJoin "," (t :: ts)).data =
          s.data ++ ',' :: (jsJoin "," (t :: ts)).data := by
        simp [String.data_append]
      rw [hdata, splitChars_append_sep hs]
      simp only [List.map_cons]
      have ihx := ih (by simp)
      unfold jsSplit at ihx
      rw [ihx hrest]

/-! Digit-string lemmas. -/

lemma digitChar_isDigit (n : Nat) : (digitChar n).isDigit = true := by
  unfold digitChar; split <;> decide

lemma natDigitsAux_isDigit {fuel n : Nat} {c : Char}
    (hc : c ∈ natDigitsAux fuel n) : c.isDigit = true := by
  induction fuel generalizing n with
  | zero => simp [natDigitsAux] at hc
  | succ fuel ih =>
    unfold natDigitsAux at hc
    split at hc
    · simp at hc
      subst hc
      exact digitChar_isDigit n
    · rcases List.mem_append.1 hc with hl | hr
      · exact ih hl
      · simp at hr
        subst hr
        exact digitChar_isDigit (n % 10)

/-- Every character of an integer's decimal form is a digit or the minus
sign. -/
lemma jsIntRepr_mem {k : Int} {c : Char} (hc : c ∈ (jsIntRepr k).data) :
    c.isDigit = true ∨ c = '-' := by
  cases k with
  | ofNat n => exact Or.inl (natDigitsAux_isDigit (by simpa [jsIntRepr, natDigits] using hc))
  | negSucc n =>
    simp only [jsIntRepr, natDigits] at hc
    rcases List.mem_cons.1 hc with rfl | hc
    · exact Or.inr rfl
    · exact Or.inl (natDigitsAux_isDigit hc)

lemma isDigit_ne_comma {c : Char} (h : c.isDigit = true) : c ≠ ',' := by
  intro e; subst e; simp [Char.isDigit] at h

lemma isDigit_ne_percent {c : Char} (h : c.isDigit = true) : c ≠ '%' := by
  intro e; subst e; simp [Char.isDigit] at h

lemma isDigit_ne_amp {c : Char} (h : c.isDigit = true) : c ≠ '&' := by
  intro e; subst e; simp [Char.isDigit] at h

/-- A percent-free string decodes to itself. -/
lemma decodeCharsF_no_percent {cs : List Char} (h : ∀ c ∈ cs, c ≠ '%') :
    ∀ fuel, cs.length ≤ fuel → decodeCharsF fuel cs = some cs := by
  induction cs with
  | nil => intro fuel _; cases fuel <;> simp [decodeCharsF]
  | cons c cs ih =>
    intro fuel hf
    cases fuel with
    | zero => simp at hf
    | succ fuel =>
      have hc : c ≠ '%' := h c (by simp)
      rw [decodeCharsF_cons_ne fuel hc,
        ih (fun x hx => h x (List.mem_cons_of_mem _ hx)) fuel (by simp at hf; omega)]
      rfl


/-! Last-character lemmas. -/

lemma lastChar_mem {s : String} {c : Char} (h : lastChar s = some c) :
    c ∈ s.data := by
  rcases List.mem_getLast?_eq_getLast (Option.mem_def.2 h) with ⟨hne, rfl⟩
  exact List.getLast_mem hne

lemma lastChar_append (a b : String) :
    lastChar (a ++ b) = (lastChar b).or (lastChar a) := by
  unfold lastChar
  rw [String.data_append, List.getLast?_append]

lemma lastChar_eq_none {s : String} (h : s = "") : lastChar s = none := by
  subst h; rfl

lemma lastChar_isSome {s : String} (h : s ≠ "") : (lastChar s).isSome := by
  apply List.getLast?_isSome.2
  intro hd
  exact h (by cases s with | mk d => simp at hd; simp [hd])

/-- The last character of a percent-encoded string is never an
ampersand. -/
lemma lastChar_encode_ne_amp (s : String) :
    lastChar (encodeURIComponent s) ≠ some '&' := by
  intro h
  exact encodeURIComponent_no_amp (lastChar_mem h) rfl

/-- A `key=value` pair with a percent-encoded value is nonempty and does
not end in an ampersand. -/
lemma qsPair_ne_amp (k v : String) :
    qsEscape k ++ "=" ++ qsEscape v ≠ "" ∧
      lastChar (qsEscape k ++ "=" ++ qsEscape v) ≠ some '&' := by
  constructor
  · intro h
    have hlen := congrArg String.length h
    simp [String.length_append] at hlen
    exact absurd hlen.1.2 (by decide)
  · rw [lastChar_append]
    by_cases hv : qsEscape v = ""
    · rw [lastChar_eq_none hv, Option.none_or, lastChar_append]
      intro h
      rcases Option.or_eq_some.1 h with h1 | ⟨_, h1⟩
      · cases h1
      · exact encodeURIComponent_no_amp (lastChar_mem h1) rfl
    · rcases Option.isSome_iff_exists.1 (lastChar_isSome hv) with ⟨c, hc⟩
      rw [hc]
      show some c ≠ some '&'
      intro h
      rw [h] at hc
      exact encodeURIComponent_no_amp (lastChar_mem hc) rfl

/-- An ampersand-join of nonempty parts is nonempty. -/
lemma jsJoin_amp_ne_empty {parts : List String} (hne : parts ≠ [])
    (h : ∀ p ∈ parts, p ≠ "") : jsJoin "&" parts ≠ "" := by
  cases parts with
  | nil => exact absurd rfl hne
  | cons s rest =>
    cases rest with
    | nil => simpa [jsJoin] using h s (by simp)
    | cons t ts =>
      rw [jsJoin_cons _ _ (by simp)]
      intro he
      have hlen := congrArg String.length he
      simp [String.length_append] at hlen
      exact absurd hlen.1.2 (by decide)

/-- Joining nonempty non-ampersand-ending parts with ampersands yields a
string that does not end in an ampersand. -/
lemma lastChar_jsJoin_amp {parts : List String}
    (h : ∀ p ∈ parts, p ≠ "" ∧ lastChar p ≠ some '&') :
    lastChar (jsJoin "&" parts) ≠ some '&' := by
  induction parts with
  | nil => intro hx; cases hx
  | cons s rest ih =>
    cases rest with
    | nil => exact (h s (by simp)).2
    | cons t ts =>
      rw [jsJoin_cons _ _ (by simp)]
      have hrest : ∀ p ∈ t :: ts, p ≠ "" ∧ lastChar p ≠ some '&' := fun p hp =>
        h p (List.mem_cons_of_mem _ hp)
      have hjne : jsJoin "&" (t :: ts) ≠ "" :=
        jsJoin_amp_ne_empty (by simp) (fun p hp => (hrest p hp).1)
      rcases Option.isSome_iff_exists.1 (lastChar_isSome hjne) with ⟨c, hc⟩
      rw [lastChar_append, hc]
      show some c ≠ some '&'
      intro he
      rw [he] at hc
      exact ih hrest hc


/-! Executor lemmas. -/

/-- One reduction step of the retry loop on a 429 response. -/
lemma runAttempts_429_step (n404 : Bool) (mR : Nat) (r : EmbResponse)
    (rest : List FetchResult) (retries k made : Nat) (ds : List JsNum)
    (b : JsonValue) (hj : r.jsonResult = some b) (hst : r.status = 429) :
    runAttempts n404 mR (.resp r :: rest) retries k ds made =
      (let delayed := retryDelayStep r.retryAfter k
      if retries + 1 ≤ mR then
        runAttempts n404 mR rest (retries + 1) delayed.2 (ds ++ [delayed.1])
          (made + 1)
      else
        { outcome := .maxRetriesExceeded r.status r.statusText b,
          attempts := made + 1, delays := ds ++ [delayed.1] }) := by
  rw [runAttempts, hj]
  dsimp only
  rw [if_neg (by rw [hst]; decide), if_neg (by rw [hst]; simp), if_pos hst]

/-- Exhausting the retry budget on consecutive 429 responses ends in the
retry-limit error carrying the last response. -/
lemma runAttempts_429_exhaust (n404 : Bool) (mR : Nat) :
    ∀ (rs : List EmbResponse) (last : EmbResponse) (b : JsonValue)
      (r k made : Nat) (ds : List JsNum),
      (∀ x ∈ rs, x.status = 429 ∧ x.jsonResult.isSome) →
      last.status = 429 → last.jsonResult = some b →
      r + rs.length = mR →
      (runAttempts n404 mR ((rs ++ [last]).map .resp) r k ds made).outcome =
          .maxRetriesExceeded 429 last.statusText b ∧
        (runAttempts n404 mR ((rs ++ [last]).map .resp) r k ds made).attempts =
          made + rs.length + 1 := by
  intro rs
  induction rs with
  | nil =>
    intro last b r k made ds _ hst hjson hr
    simp only [List.length_nil, Nat.add_zero] at hr
    simp only [List.nil_append, List.map_cons, List.map_nil]
    rw [runAttempts_429_step n404 mR last [] r k made ds b hjson hst]
    dsimp only
    rw [if_neg (by omega), hst]
    exact ⟨rfl, rfl⟩
  | cons x rs ih =>
    intro last b r k made ds hall hst hjson hr
    rcases hall x (by simp) with ⟨hxst, hxjson⟩
    rcases Option.isSome_iff_exists.1 hxjson with ⟨bx, hbx⟩
    simp only [List.length_cons] at hr
    simp only [List.cons_append, List.map_cons]
    rw [runAttempts_429_step n404 mR x _ r k made ds bx hbx hxst]
    dsimp only
    rw [if_pos (by omega)]
    have hih := ih last b (r + 1) (retryDelayStep x.retryAfter k).2 (made + 1)
      (ds ++ [(retryDelayStep x.retryAfter k).1])
      (fun y hy => hall y (List.mem_cons_of_mem _ hy)) hst hjson (by omega)
    refine ⟨hih.1, ?_⟩
    rw [hih.2]
    simp only [List.length_cons]
    omega

/-- The delays recorded so far are a prefix of the final delay trace. -/
lemma runAttempts_delays_prefix (n404 : Bool) (mR : Nat) :
    ∀ (fetches : List FetchResult) (r k made : Nat) (ds : List JsNum),
      ∃ tail, (runAttempts n404 mR fetches r k ds made).delays = ds ++ tail := by
  intro fetches
  induction fetches with
  | nil => intro r k made ds; exact ⟨[], by simp [runAttempts]⟩
  | cons f rest ih =>
    intro r k made ds
    cases f with
    | typeError m => exact ⟨[], by simp [runAttempts]⟩
    | abortError m => exact ⟨[], by simp [runAttempts]⟩
    | otherError s => exact ⟨[], by simp [runAttempts]⟩
    | resp x =>
      rcases hj : x.jsonResult with _ | b
      · rw [runAttempts, hj]
        exact ⟨[], by simp⟩
      · rw [runAttempts, hj]
        dsimp only
        by_cases h1 : respOk x.status = true
        · rw [if_pos h1]
          exact ⟨[], by simp⟩
        · rw [if_neg h1]
          by_cases h2 : x.status = 404 ∧ n404 = true
          · rw [if_pos h2]
            exact ⟨[], by simp⟩
          · rw [if_neg h2]
            by_cases h3 : x.status = 429
            · rw [if_pos h3]
              by_cases h4 : r + 1 ≤ mR
              · rw [if_pos h4]
                rcases ih (r + 1) (retryDelayStep x.retryAfter k).2 (made + 1)
                  (ds ++ [(retryDelayStep x.retryAfter k).1]) with ⟨tail, htail⟩
                exact ⟨(retryDelayStep x.retryAfter k).1 :: tail,
                  by rw [htail]; simp⟩
              · rw [if_neg h4]
                exact ⟨[(retryDelayStep x.retryAfter k).1], by simp⟩
            · rw [if_neg h3]
              exact ⟨[], by simp⟩

/-- With no `Retry-After` headers, a full budget-exhausting run of 429
responses awaits exactly the successive backoff durations. -/
lemma runAttempts_429_backoff_delays (n404 : Bool) (mR : Nat) :
    ∀ (rs : List EmbResponse) (r k made : Nat) (ds : List JsNum),
      (∀ x ∈ rs, x.status = 429 ∧ x.jsonResult.isSome ∧ x.retryAfter = none) →
      r + rs.length = mR + 1 →
      (runAttempts n404 mR (rs.map .resp) r k ds made).delays =
        ds ++ (List.range rs.length).map
          (fun j => JsNum.num (backoffDuration (k + j))) := by
  intro rs
  induction rs with
  | nil => intro r k made ds _ _; simp [runAttempts]
  | cons x rs ih =>
    intro r k made ds hall hr
    rcases hall x (by simp) with ⟨hxst, hxjson, hxra⟩
    rcases Option.isSome_iff_exists.1 hxjson with ⟨bx, hbx⟩
    simp only [List.length_cons] at hr
    simp only [List.map_cons]
    rw [runAttempts_429_step n404 mR x _ r k made ds bx hbx hxst]
    dsimp only
    rw [hxra]
    dsimp only [retryDelayStep]
    have hrange : (List.range (rs.length + 1)).map
        (fun j => JsNum.num (backoffDuration (k + j))) =
        JsNum.num (backoffDuration k) :: (List.range rs.length).map
          (fun j => JsNum.num (backoffDuration (k + 1 + j))) := by
      rw [List.range_succ_eq_map]
      simp only [List.map_cons, Nat.add_zero, List.map_map]
      congr 1
      apply List.map_congr_left
      intro j _
      have : k + Nat.succ j = k + 1 + j := by omega
      simp [Function.comp, this]
    by_cases h4 : r + 1 ≤ mR
    · rw [if_pos h4]
      rw [ih (r + 1) (k + 1) (made + 1) _
        (fun y hy => hall y (List.mem_cons_of_mem _ hy)) (by omega)]
      simp only [List.length_cons, hrange]
      simp
    · rw [if_neg h4]
      have hlen : rs.length = 0 := by omega
      have hnil : rs = [] := List.length_eq_zero.1 hlen
      subst hnil
      simp [List.range_succ]


/-! ## Claim theorems -/

/-- C1: only HTTP 429 responses are retried.  A response with a non-success,
non-429 status (other than a 404 with `nullOn404` enabled) rejects
immediately with a generic `ApiError` carrying that response's
status/statusText/body, makes exactly one attempt and consumes none of the
remaining transport trace; a run in which every attempt up to the retry
budget receives a 429 rejects with `MaxRetriesExceededError` — a distinct
outcome from a generic `ApiError` — carrying the last response's
status/statusText/body.  (Responses are assumed to carry well-formed JSON
bodies, the transport contract the core trusts.) -/
theorem C1_only_429_is_retried :
    (∀ (r : EmbResponse) (rest : List FetchResult) (n404 : Bool) (mR : Nat)
      (b : JsonValue), r.jsonResult = some b → respOk r.status = false →
      r.status ≠ 429 → ¬(r.status = 404 ∧ n404 = true) →
      execute (.resp r :: rest) n404 mR =
        { outcome := .apiError r.status r.statusText b, attempts := 1,
          delays := [] }) ∧
    (∀ (rs : List EmbResponse) (last : EmbResponse) (b : JsonValue)
      (n404 : Bool) (mR : Nat),
      (∀ x ∈ rs, x.status = 429 ∧ x.jsonResult.isSome) → last.status = 429 →
      last.jsonResult = some b → rs.length = mR →
      (execute ((rs ++ [last]).map .resp) n404 mR).outcome =
          .maxRetriesExceeded 429 last.statusText b ∧
        (execute ((rs ++ [last]).map .resp) n404 mR).attempts = mR + 1 ∧
        ∀ (st : Nat) (t : String) (bb : JsonValue),
          (execute ((rs ++ [last]).map .resp) n404 mR).outcome ≠
            .apiError st t bb) := by
  constructor
  · intro r rest n404 mR b hj hok h429 h404
    rw [execute, runAttempts, hj]
    dsimp only
    rw [if_neg (by rw [hok]; simp), if_neg h404, if_neg h429]
  · intro rs last b n404 mR hall hst hjson hlen
    have h := runAttempts_429_exhaust n404 mR rs last b 0 0 0 [] hall hst hjson
      (by omega)
    simp only [execute]
    refine ⟨h.1, by rw [h.2]; omega, ?_⟩
    intro st t bb
    rw [h.1]
    simp

/-- C1 witness: a 500 response rejects at once with a generic `ApiError`,
and three consecutive 429 responses against a budget of 2 reject with the
retry-limit error after three attempts. -/
theorem C1_only_429_is_retried_witness :
    (execute [FetchResult.resp ⟨500, "ISE", none, some JsonValue.null⟩]
        false 10 =
      { outcome := .apiError 500 "ISE" JsonValue.null, attempts := 1,
        delays := [] }) ∧
    ((execute (List.map FetchResult.resp
        (List.replicate 2 (⟨429, "tm", none, some JsonValue.null⟩ : EmbResponse)
          ++ [(⟨429, "tm", none, some JsonValue.null⟩ : EmbResponse)]))
        false 2).outcome = .maxRetriesExceeded 429 "tm" JsonValue.null ∧
      (execute (List.map FetchResult.resp
        (List.replicate 2 (⟨429, "tm", none, some JsonValue.null⟩ : EmbResponse)
          ++ [(⟨429, "tm", none, some JsonValue.null⟩ : EmbResponse)]))
        false 2).attempts = 3 ∧
      ∀ (st : Nat) (t : String) (bb : JsonValue),
        (execute (List.map FetchResult.resp
          (List.replicate 2 (⟨429, "tm", none, some JsonValue.null⟩ : EmbResponse)
            ++ [(⟨429, "tm", none, some JsonValue.null⟩ : EmbResponse)]))
          false 2).outcome ≠ .apiError st t bb) := by
  constructor
  · exact C1_only_429_is_retried.1 ⟨500, "ISE", none, some JsonValue.null⟩ []
      false 10 JsonValue.null rfl (by decide) (by decide) (by simp)
  · exact C1_only_429_is_retried.2
      (List.replicate 2 ⟨429, "tm", none, some JsonValue.null⟩)
      ⟨429, "tm", none, some JsonValue.null⟩ JsonValue.null false 2
      (by
        intro x hx
        rw [List.eq_of_mem_replicate hx]
        exact ⟨rfl, rfl⟩)
      rfl rfl rfl

/-- C6: a 404 response with `nullOn404` enabled resolves the handle with a
null value in a single attempt, while with the option disabled the same
response rejects with a generic `ApiError` — under the transport contract
that the body is well-formed JSON. -/
theorem C6_null_on_404 :
    (∀ (st : String) (ra : Option String) (b : JsonValue)
      (rest : List FetchResult) (mR : Nat),
      execute (.resp ⟨404, st, ra, some b⟩ :: rest) true mR =
        { outcome := .resolvedNull, attempts := 1, delays := [] }) ∧
    (∀ (st : String) (ra : Option String) (b : JsonValue)
      (rest : List FetchResult) (mR : Nat),
      execute (.resp ⟨404, st, ra, some b⟩ :: rest) false mR =
        { outcome := .apiError 404 st b, attempts := 1, delays := [] }) := by
  constructor
  · intro st ra b rest mR
    rw [execute, runAttempts]
    dsimp only
    rw [if_neg (by decide), if_pos ⟨rfl, rfl⟩]
  · intro st ra b rest mR
    rw [execute, runAttempts]
    dsimp only
    rw [if_neg (by decide), if_neg (by simp), if_neg (by decide)]

/-- C4 counterexample: a present but non-numeric `Retry-After` header
(`abc`) is NOT replaced by the next backoff duration — the `||` short
circuits on the truthy string and `+` coerces it to NaN, which becomes the
awaited delay. -/
theorem C4_nonnumeric_header_counterexample :
    (execute [FetchResult.resp ⟨429, "tm", some "abc", some JsonValue.null⟩,
        FetchResult.resp ⟨200, "OK", none, some JsonValue.null⟩]
      false 10).delays = [JsNum.nan] ∧
    JsNum.nan ≠ JsNum.num (backoffDuration 0) := by
  exact ⟨rfl, by decide⟩

/-- C4 (amended): the delay before the next attempt after a 429 is the
JavaScript numeric coercion of the `Retry-After` header whenever that
header is present and non-empty (its numeric value when numeric, NaN
otherwise); only when the header is absent (or empty) is the next
exponential-backoff duration `min(100·2^k, 20000)` used, the backoff
counter advancing once per headerless 429. -/
theorem C4_retry_delay :
    (∀ (st s : String) (b : JsonValue) (rest : List FetchResult)
      (n404 : Bool) (mR : Nat), s ≠ "" →
      (execute (.resp ⟨429, st, some s, some b⟩ :: rest) n404 mR).delays.head? =
        some (jsToNumber s)) ∧
    (∀ (st : String) (b : JsonValue) (rest : List FetchResult) (n404 : Bool)
      (mR : Nat),
      (execute (.resp ⟨429, st, none, some b⟩ :: rest) n404 mR).delays.head? =
        some (JsNum.num (backoffDuration 0))) ∧
    (∀ (n404 : Bool) (mR : Nat) (rs : List EmbResponse),
      (∀ x ∈ rs, x.status = 429 ∧ x.jsonResult.isSome ∧ x.retryAfter = none) →
      rs.length = mR + 1 →
      (execute (rs.map .resp) n404 mR).delays =
        (List.range (mR + 1)).map (fun k => JsNum.num (backoffDuration k))) := by
  refine ⟨?_, ?_, ?_⟩
  · intro st s b rest n404 mR hs
    rw [execute, runAttempts_429_step n404 mR _ rest 0 0 0 [] b rfl rfl]
    dsimp only [retryDelayStep]
    rw [if_neg hs]
    simp only [Nat.zero_add, List.nil_append]
    by_cases h4 : 0 + 1 ≤ mR
    · rw [if_pos h4]
      rcases runAttempts_delays_prefix n404 mR rest 1 0 1 [jsToNumber s]
        with ⟨tail, htail⟩
      rw [htail]
      rfl
    · rw [if_neg h4]
      rfl
  · intro st b rest n404 mR
    rw [execute, runAttempts_429_step n404 mR _ rest 0 0 0 [] b rfl rfl]
    dsimp only [retryDelayStep]
    simp only [Nat.zero_add, List.nil_append]
    by_cases h4 : 0 + 1 ≤ mR
    · rw [if_pos h4]
      rcases runAttempts_delays_prefix n404 mR rest 1 1 1
        [JsNum.num (backoffDuration 0)] with ⟨tail, htail⟩
      rw [htail]
      rfl
    · rw [if_neg h4]
      rfl
  · intro n404 mR rs hall hlen
    rw [execute, runAttempts_429_backoff_delays n404 mR rs 0 0 0 [] hall
      (by omega), hlen]
    simp

/-- C4 witness: a numeric header of `7` yields a delay of 7, a missing
header yields the first backoff duration 100, and two headerless 429s
against a budget of 1 delay by 100 then 200. -/
theorem C4_retry_delay_witness :
    ((execute [.resp ⟨429, "tm", some "7", some .null⟩] false 0).delays.head? =
      some (jsToNumber "7") ∧ jsToNumber "7" = .num 7) ∧
    ((execute [.resp ⟨429, "tm", none, some .null⟩] false 0).delays.head? =
      some (JsNum.num (backoffDuration 0)) ∧ backoffDuration 0 = 100) ∧
    (execute ((List.replicate 2 (⟨429, "tm", none, some .null⟩ : EmbResponse)).map
        .resp) false 1).delays =
      (List.range 2).map (fun k => JsNum.num (backoffDuration k)) := by
  refine ⟨⟨?_, ?_⟩, ⟨?_, by decide⟩, ?_⟩
  case refine_2 =>
    rw [show jsToNumber "7" =
      JsNum.num ((7 : ℚ) + (0 : ℚ) / (10 : ℚ) ^ (0 : Nat)) from rfl]
    norm_num
  · exact C4_retry_delay.1 "tm" "7" .null [] false 0 (by decide)
  · exact C4_retry_delay.2.1 "tm" .null [] false 0
  · exact C4_retry_delay.2.2 false 1 (List.replicate 2 ⟨429, "tm", none, some .null⟩)
      (by
        intro x hx
        rw [List.eq_of_mem_replicate hx]
        exact ⟨rfl, rfl, rfl⟩)
      rfl

/-- C2: contrary to the declared interface (the id+options overload is
typed to return a handle with no child accessors, and its doc comment says
nothing can be chained onto it), the implementation merges child-endpoint
accessors whenever the endpoint declares nested resources, for every call
shape including id+options: calling the `book` interface as
`book('1', {})` returns a handle that still exposes the `chapter` child
accessor. -/
theorem C2_idopts_exposes_children :
    (callInterface bookEndpoint bookOne (.idOpts (.str "1") {})).children =
      [("chapter", "/book/1/chapter", .flag true)] ∧
    (callInterface bookEndpoint bookOne (.idOpts (.str "1") {})).children ≠ [] ∧
    ∀ shape : CallShape,
      (callInterface bookEndpoint bookOne shape).children.map
        (fun child => child.1) = ["chapter"] := by
  refine ⟨rfl, fun h => absurd (congrArg List.length h) (by decide), ?_⟩
  intro shape
  cases shape <;> rfl

/-- C10: the stubbed transport returns status 200 with the request URL as
the body for every request, so the 404, 429 and non-success branches are
unreachable; but the URL text is not valid JSON, so `response.json()`
throws and — contrary to the documented behaviour of resolving with the
URL — every forced handle rejects with an `UnknownError` after a single
attempt. -/
theorem C10_stub_rejects :
    requestUrl (callInterface bookEndpoint bookOne (.idOnly (.num 1))) =
      "https://localhost:8000//book/1?" ∧
    (testFetch (requestUrl (callInterface bookEndpoint bookOne
      (.idOnly (.num 1))))).status = 200 ∧
    (testFetch (requestUrl (callInterface bookEndpoint bookOne
      (.idOnly (.num 1))))).bodyText =
      requestUrl (callInterface bookEndpoint bookOne (.idOnly (.num 1))) ∧
    jsonParse "https://localhost:8000//book/1?" = none ∧
    (forceWithTestFetch (callInterface bookEndpoint bookOne (.idOnly (.num 1)))
        false 10).outcome = .unknownError stringifiedError ∧
    (forceWithTestFetch (callInterface bookEndpoint bookOne (.idOnly (.num 1)))
        false 10).attempts = 1 := by
  exact ⟨rfl, rfl, rfl, rfl, rfl, rfl⟩


/-- A truthy id renders to a nonempty string. -/
lemma jsIdRepr_ne_empty {i : JsId} (h : jsFalsy i = false) : jsIdRepr i ≠ "" := by
  cases i with
  | str s =>
    simp [jsFalsy] at h
    simpa [jsIdRepr] using h
  | num n =>
    have hnd : ∀ m : Nat, natDigits m ≠ [] := by
      intro m
      unfold natDigits natDigitsAux
      split <;> simp
    cases n with
    | ofNat m =>
      intro he
      exact hnd m (congrArg String.data he)
    | negSucc m =>
      intro he
      exact List.noConfusion (congrArg String.data he)

/-- C5 counterexample: the number 0 is a supplied id, yet the path drops
both the id and the separator (lodash `compact` removes falsy array
elements), so `book(0)` requests the collection path `/book`, not
`/book/0`. -/
theorem C5_zero_id_counterexample :
    jsFalsy (.num 0) = true ∧
    requestPath bookEndpoint (some (.num 0)) = "/book" ∧
    requestPath bookEndpoint (some (.num 0)) ≠
      bookEndpoint ++ "/" ++ jsIdRepr (.num 0) := by
  exact ⟨rfl, rfl, by decide⟩

/-- C5 (amended): for a truthy id the request path is the endpoint path,
a slash, and the id; with no id (or a falsy one) the path is the endpoint
alone; and a chained child accessor of `parent(id)` targets exactly
`<parent-path>/<id>/<child-path>` — forcing the child handle requests that
path, never the parent's. -/
theorem C5_child_path :
    (∀ (e : String) (i : JsId), e ≠ "" → jsFalsy i = false →
      requestPath e (some i) = e ++ "/" ++ jsIdRepr i) ∧
    (∀ e : String, e ≠ "" → requestPath e none = e) ∧
    (∀ (e : String) (i : JsId) (entries : List (String × Option OneSpec))
      (k : String) (sub : Option OneSpec), e ≠ "" → jsFalsy i = false →
      (k, sub) ∈ entries →
      ((k, requestPath e (some i) ++ "/" ++ k, childOne sub) ∈
        (callInterface e (.nested entries) (.idOnly i)).children ∧
      (callInterface (requestPath e (some i) ++ "/" ++ k) (childOne sub)
        .noArgs).path = e ++ "/" ++ jsIdRepr i ++ "/" ++ k)) := by
  have hpath : ∀ (e : String) (i : JsId), e ≠ "" → jsFalsy i = false →
      requestPath e (some i) = e ++ "/" ++ jsIdRepr i := by
    intro e i he hf
    unfold requestPath
    simp only [Option.getD_some]
    rw [hf]
    simp only [Bool.false_eq_true, if_false, jsCompact]
    rw [List.filter_cons_of_pos (by simpa using he),
      List.filter_cons_of_pos (by simpa using jsIdRepr_ne_empty hf)]
    rfl
  have hnone : ∀ e : String, e ≠ "" → requestPath e none = e := by
    intro e he
    unfold requestPath
    simp only [Option.getD_none]
    rw [show jsFalsy (.str "") = true from rfl]
    simp only [if_true, jsCompact]
    rw [List.filter_cons_of_pos (by simpa using he)]
    rfl
  refine ⟨hpath, hnone, ?_⟩
  intro e i entries k sub he hf hmem
  constructor
  · show _ ∈ entries.map _
    refine List.mem_map.2 ⟨(k, sub), hmem, ?_⟩
    rfl
  · have hce : requestPath e (some i) ++ "/" ++ k ≠ "" := by
      intro h
      have := congrArg String.length h
      simp [String.length_append] at this
      exact absurd this.1.2 (by decide)
    show requestPath (requestPath e (some i) ++ "/" ++ k) none = _
    rw [hnone _ hce, hpath e i he hf]

/-- C5 witness: `/book` with id 1 yields `/book/1`, and the chained
`chapter` accessor of `book(1)` targets `/book/1/chapter`. -/
theorem C5_child_path_witness :
    requestPath "/book" (some (.str "1")) = "/book" ++ "/" ++ jsIdRepr (.str "1") ∧
    requestPath "/book" none = "/book" ∧
    (("chapter", requestPath "/book" (some (.str "1")) ++ "/" ++ "chapter",
        childOne none) ∈
      (callInterface "/book" (.nested [("chapter", none)])
        (.idOnly (.str "1"))).children ∧
    (callInterface (requestPath "/book" (some (.str "1")) ++ "/" ++ "chapter")
        (childOne none) .noArgs).path =
      "/book" ++ "/" ++ jsIdRepr (.str "1") ++ "/" ++ "chapter") := by
  exact ⟨C5_child_path.1 "/book" (.str "1") (by decide) rfl,
    C5_child_path.2.1 "/book" (by decide),
    C5_child_path.2.2 "/book" (.str "1") [("chapter", none)] "chapter" none
      (by decide) rfl (by simp)⟩

/-- C3 counterexample: the value of a negation filter is NOT
percent-encoded — the encoder emits its literal string form — so
`{ name: { $ne: 'a b' } }` encodes to `name!=a b`, not the claimed
`name!=a%20b`. -/
theorem C3_ne_counterexample :
    stringifyFilters [("name", .ne (.prim (.pstr "a b")))] = "name!=a b" ∧
    encodeURIComponent "a b" = "a%20b" ∧
    stringifyFilters [("name", .ne (.prim (.pstr "a b")))] ≠
      "name!=" ++ encodeURIComponent "a b" := by
  exact ⟨rfl, rfl, by decide⟩

/-- C3 (amended): a negation filter encodes as `field!=value` with the key
percent-encoded but the value in its literal template form — strings
unencoded, patterns as `/source/flags`, null as `null`, numbers in
decimal; in particular `{ name: { $ne: 'abc' } }` encodes exactly to
`name!=abc`. -/
theorem C3_ne_encoding :
    (∀ (k : String) (v : NeVal),
      stringifyFilters [(k, .ne v)] =
        encodeURIComponent k ++ "!=" ++ neTemplate v) ∧
    stringifyFilters [("name", .ne (.prim (.pstr "abc")))] = "name!=abc" := by
  refine ⟨?_, rfl⟩
  intro k v
  simp [stringifyFilters, encode, filterFragments, jsJoin]

/-- C8: a comparison filter emits one `field<op>value` fragment per
populated bound, each a separate top-level fragment, in the fixed order
`>`, `<`, `>=`, `<=`, with no exclusivity validation; in particular
`{ words: { $gt: 20 } }` encodes exactly to `words>20`, and all four bounds
together produce four ampersand-separated fragments. -/
theorem C8_comparison_fragments :
    (∀ (k : String) (gt lt gte lte : Option Int),
      stringifyFilters [(k, .cmp gt lt gte lte)] =
        jsJoin "&"
          ((gt.toList.map fun n => encodeURIComponent k ++ ">" ++ jsIntRepr n) ++
          (lt.toList.map fun n => encodeURIComponent k ++ "<" ++ jsIntRepr n) ++
          (gte.toList.map fun n => encodeURIComponent k ++ ">=" ++ jsIntRepr n) ++
          (lte.toList.map fun n => encodeURIComponent k ++ "<=" ++ jsIntRepr n))) ∧
    stringifyFilters [("words", .cmp (some 20) none none none)] = "words>20" ∧
    stringifyFilters [("a", .cmp (some 1) (some 2) (some 3) (some 4))] =
      "a>1&a<2&a>=3&a<=4" := by
  refine ⟨?_, rfl, rfl⟩
  intro k gt lt gte lte
  rcases gt with _ | g <;> rcases lt with _ | l <;> rcases gte with _ | ge <;>
    rcases lte with _ | le <;>
    simp [stringifyFilters, encode, filterFragments, jsJoin]


/-- A percent-free string decodes to itself. -/
lemma decodeURIComponent_no_percent {s : String}
    (h : ∀ c ∈ s.data, c ≠ '%') : decodeURIComponent s = some s := by
  unfold decodeURIComponent
  rw [decodeCharsF_no_percent h s.data.length le_rfl]
  rfl

/-- C9 counterexample: the empty inclusion list encodes to `a=`, whose
value part splits (as JavaScript splits) to `[""]`, not to the original
empty list — the round-trip cannot recover `[]`. -/
theorem C9_inclusion_counterexample :
    stringifyFilters [("a", .list [])] = "a=" ∧
    jsSplit ',' "" = [""] ∧
    (jsSplit ',' "").map decodeURIComponent ≠
      ([] : List JsPrim).map (fun p => some (primJoinElem p)) := by
  exact ⟨rfl, rfl, by decide⟩

/-- C9 (amended): an inclusion list encodes to `field=v1,v2,...` with the
values independently percent-encoded (strings; numbers and null pass
through the element encoding, null rendering as the empty string in the
join), and for every NONEMPTY list, splitting the value part on `,` and
percent-decoding each piece recovers, in order, each element's joined
string form — string elements exactly, numbers in decimal, null as the
empty string. -/
theorem C9_inclusion_roundtrip :
    (∀ (k : String) (ps : List JsPrim),
      stringifyFilters [(k, .list ps)] =
        encodeURIComponent k ++ "=" ++
          jsJoin "," (ps.map fun p => primJoinElem (encodePrimElem p))) ∧
    (∀ ps : List JsPrim, ps ≠ [] →
      (jsSplit ','
          (jsJoin "," (ps.map fun p => primJoinElem (encodePrimElem p)))).map
          decodeURIComponent =
        ps.map (fun p => some (primJoinElem p))) := by
  constructor
  · intro k ps
    simp [stringifyFilters, encode, filterFragments, jsJoin, List.map_map]
    rfl
  · intro ps hne
    have hpieces : ∀ p ∈ ps.map (fun p => primJoinElem (encodePrimElem p)),
        ',' ∉ p.data := by
      intro p hp
      rcases List.mem_map.1 hp with ⟨q, _, rfl⟩
      intro hmem
      cases q with
      | pstr t => exact encodeURIComponent_no_comma hmem rfl
      | pnum n =>
        rcases jsIntRepr_mem hmem with hd | hminus
        · exact isDigit_ne_comma hd rfl
        · cases hminus
      | pnull => cases hmem
    rw [jsSplit_jsJoin (by simpa using hne) hpieces, List.map_map]
    apply List.map_congr_left
    intro p _
    show decodeURIComponent (primJoinElem (encodePrimElem p)) =
      some (primJoinElem p)
    cases p with
    | pstr t => exact decodeURIComponent_encodeURIComponent t
    | pnum n =>
      apply decodeURIComponent_no_percent
      intro c hc
      rcases jsIntRepr_mem hc with hd | hminus
      · exact isDigit_ne_percent hd
      · subst hminus; decide
    | pnull => rfl

/-- C9 witness: the list `['x,y', 3, null]` encodes with its comma
escaped, and splitting and decoding recovers the three joined forms. -/
theorem C9_inclusion_roundtrip_witness :
    stringifyFilters [("a", .list [JsPrim.pstr "x,y", .pnum 3, .pnull])] =
      encodeURIComponent "a" ++ "=" ++
        jsJoin "," (([JsPrim.pstr "x,y", .pnum 3, .pnull]).map
          fun p => primJoinElem (encodePrimElem p)) ∧
    (jsSplit ','
        (jsJoin "," (([JsPrim.pstr "x,y", .pnum 3, .pnull]).map
          fun p => primJoinElem (encodePrimElem p)))).map decodeURIComponent =
      ([JsPrim.pstr "x,y", .pnum 3, .pnull]).map
        (fun p => some (primJoinElem p)) := by
  exact ⟨C9_inclusion_roundtrip.1 "a" [JsPrim.pstr "x,y", .pnum 3, .pnull],
    C9_inclusion_roundtrip.2 [JsPrim.pstr "x,y", .pnum 3, .pnull] (by simp)⟩

/-- The pagination part of the query never ends in an ampersand. -/
lemma lastChar_qsStringify (entries : List (String × String)) :
    lastChar (qsStringify entries) ≠ some '&' := by
  apply lastChar_jsJoin_amp
  intro p hp
  rcases List.mem_map.1 hp with ⟨kv, _, rfl⟩
  exact qsPair_ne_amp kv.1 kv.2

/-- C7 counterexample: a filter fragment can itself end in an ampersand
(`$ne` values are not percent-encoded), and the composer then produces a
query string ending in `&`, contradicting the claimed invariant. -/
theorem C7_trailing_amp_counterexample :
    stringifyFilters [("a", .ne (.prim (.pstr "&")))] = "a!=&" ∧
    composeParts {} "a!=&" = "a!=&" ∧
    lastChar (composeParts {} "a!=&") = some '&' := by
  exact ⟨rfl, rfl, rfl⟩

/-- C7 (amended): the composer omits every absent/undefined/null
pagination or sort field, serializes the present ones as `key=value` pairs
in the fixed order limit, page, offset, order, and appends the filter
fragment last, separated by `&` exactly when both parts are nonempty; the
result never ends in `&` provided the filter fragment itself does not
(which can fail only because `$ne`/`$nin` values are unencoded). -/
theorem C7_query_composer :
    (∀ o : ManyOptions,
      qsStringify (queryObject o) =
        jsJoin "&"
          ((o.limit.toOption.toList.map
              fun n => "limit=" ++ qsEscape (jsIntRepr n)) ++
            (o.page.toOption.toList.map
              fun n => "page=" ++ qsEscape (jsIntRepr n)) ++
            (o.offset.toOption.toList.map
              fun n => "offset=" ++ qsEscape (jsIntRepr n)) ++
            (o.order.toOption.toList.map fun v => "order=" ++ qsEscape v))) ∧
    (∀ (o : ManyOptions) (fq : String), fq = "" →
      composeParts o fq = qsStringify (queryObject o)) ∧
    (∀ (o : ManyOptions) (fq : String), fq ≠ "" →
      qsStringify (queryObject o) = "" → composeParts o fq = fq) ∧
    (∀ (o : ManyOptions) (fq : String), fq ≠ "" →
      qsStringify (queryObject o) ≠ "" →
      composeParts o fq = qsStringify (queryObject o) ++ "&" ++ fq) ∧
    (∀ (o : ManyOptions) (fq : String), lastChar fq ≠ some '&' →
      lastChar (composeParts o fq) ≠ some '&') := by
  refine ⟨?_, ?_, ?_, ?_, ?_⟩
  · intro o
    rcases hl : o.limit.toOption with _ | n <;>
      rcases hp : o.page.toOption with _ | np <;>
      rcases hoff : o.offset.toOption with _ | noff <;>
      rcases hord : o.order.toOption with _ | v <;>
      (simp [queryObject, qsStringify, jsJoin, hl, hp, hoff, hord]; try rfl)
  · intro o fq hfq
    subst hfq
    unfold composeParts jsCompact
    by_cases hqs : qsStringify (queryObject o) = ""
    · rw [List.filter_cons_of_neg (by simpa using hqs),
        List.filter_cons_of_neg (by simp)]
      simp [jsJoin, hqs]
    · rw [List.filter_cons_of_pos (by simpa using hqs),
        List.filter_cons_of_neg (by simp)]
      rfl
  · intro o fq hfq hqs
    unfold composeParts jsCompact
    rw [List.filter_cons_of_neg (by simpa using hqs),
      List.filter_cons_of_pos (by simpa using hfq)]
    rfl
  · intro o fq hfq hqs
    unfold composeParts jsCompact
    rw [List.filter_cons_of_pos (by simpa using hqs),
      List.filter_cons_of_pos (by simpa using hfq)]
    rfl
  · intro o fq hfq
    by_cases hq : fq = ""
    · subst hq
      unfold composeParts jsCompact
      by_cases hqs : qsStringify (queryObject o) = ""
      · rw [List.filter_cons_of_neg (by simpa using hqs),
          List.filter_cons_of_neg (by simp)]
        intro hx
        cases hx
      · rw [List.filter_cons_of_pos (by simpa using hqs),
          List.filter_cons_of_neg (by simp)]
        exact lastChar_qsStringify (queryObject o)
    · unfold composeParts jsCompact
      by_cases hqs : qsStringify (queryObject o) = ""
      · rw [List.filter_cons_of_neg (by simpa using hqs),
          List.filter_cons_of_pos (by simpa using hq)]
        exact hfq
      · rw [List.filter_cons_of_pos (by simpa using hqs),
          List.filter_cons_of_pos (by simpa using hq)]
        show lastChar (qsStringify (queryObject o) ++ "&" ++ fq) ≠ some '&'
        rcases Option.isSome_iff_exists.1 (lastChar_isSome hq) with ⟨c, hc⟩
        rw [lastChar_append, hc]
        show some c ≠ some '&'
        intro he
        rw [he] at hc
        exact hfq hc

/-- C7 witness: with limit 5 and order `name:asc` and the fragment
`words>20`, the query is `limit=5&order=name%3Aasc&words>20`, ending in a
digit, not `&`. -/
theorem C7_query_composer_witness :
    qsStringify (queryObject { limit := .val 5, order := .val "name:asc" }) =
      jsJoin "&"
        (((JsOpt.val (5 : Int)).toOption.toList.map
            fun n => "limit=" ++ qsEscape (jsIntRepr n)) ++
          ((JsOpt.absent : JsOpt Int).toOption.toList.map
            fun n => "page=" ++ qsEscape (jsIntRepr n)) ++
          ((JsOpt.absent : JsOpt Int).toOption.toList.map
            fun n => "offset=" ++ qsEscape (jsIntRepr n)) ++
          ((JsOpt.val "name:asc").toOption.toList.map
            fun v => "order=" ++ qsEscape v)) ∧
    composeParts { limit := .val 5, order := .val "name:asc" } "" =
      qsStringify (queryObject { limit := .val 5, order := .val "name:asc" }) ∧
    composeParts {} "words>20" = "words>20" ∧
    composeParts { limit := .val 5, order := .val "name:asc" } "words>20" =
      qsStringify (queryObject { limit := .val 5, order := .val "name:asc" }) ++
        "&" ++ "words>20" ∧
    lastChar (composeParts { limit := .val 5, order := .val "name:asc" }
      "words>20") ≠ some '&' := by
  refine ⟨C7_query_composer.1 _, C7_query_composer.2.1 _ "" rfl,
    C7_query_composer.2.2.1 {} "words>20" (by decide) rfl,
    C7_query_composer.2.2.2.1 _ "words>20" (by decide) (by decide),
    C7_query_composer.2.2.2.2 _ "words>20" (by decide)⟩

end SDK

